import Mathlib

/-!
Verification of the percona-backup-mongodb coordinator against its design
specification.  Go strings are embedded as lists of characters so that the
splitting functions can be reasoned about by induction; fallible database
calls return their Go-style pair of result and error, with the possibly-nil
Go pointer embedded as an `Option`.
-/

namespace PBM

/-- Embedding of a Go string as a list of characters. -/
abbrev GoStr := List Char

/-- Embedding of Go `strings.Split(s, sep)` for a one-character separator:
splits around every occurrence of `c`; the empty input yields `[""]`,
matching Go. -/
def splitChar (c : Char) : GoStr → List GoStr
  | [] => [[]]
  | x :: xs =>
    let r := splitChar c xs
    if x = c then [] :: r
    else (x :: r.headI) :: r.tail

theorem splitChar_ne_nil (c : Char) (l : GoStr) : splitChar c l ≠ [] := by
  cases l with
  | nil => simp [splitChar]
  | cons x xs =>
    by_cases h : x = c <;> simp [splitChar, h]

/-- The number of pieces produced by `splitChar` is one more than the number
of occurrences of the separator. -/
theorem splitChar_length (c : Char) (l : GoStr) :
    (splitChar c l).length = l.count c + 1 := by
  induction l with
  | nil => simp [splitChar]
  | cons x xs ih =>
    by_cases h : x = c
    · simp [splitChar, h, List.count_cons, ih]
    · have hne := splitChar_ne_nil c xs
      rcases hxs : splitChar c xs with _ | ⟨y, ys⟩
      · exact absurd hxs hne
      · have hlen := ih
        rw [hxs] at hlen
        simp only [List.length_cons] at hlen
        simp [splitChar, h, hxs, List.count_cons]
        omega

/-- Splitting a string that does not contain the separator yields the whole
string as the single piece. -/
theorem splitChar_not_mem (c : Char) (l : GoStr) (h : c ∉ l) :
    splitChar c l = [l] := by
  induction l with
  | nil => rfl
  | cons x xs ih =>
    have hx : x ≠ c := fun hc => h (hc ▸ List.mem_cons_self x xs)
    have hxs : c ∉ xs := fun hc => h (List.mem_cons_of_mem x hc)
    simp [splitChar, hx, ih hxs]

/-- Splitting around the first occurrence of the separator peels off the
prefix before it. -/
theorem splitChar_append (c : Char) (a b : GoStr) (ha : c ∉ a) :
    splitChar c (a ++ c :: b) = a :: splitChar c b := by
  induction a with
  | nil => simp [splitChar]
  | cons x xs ih =>
    have hx : x ≠ c := fun hc => ha (hc ▸ List.mem_cons_self x xs)
    have hxs : c ∉ xs := fun hc => ha (List.mem_cons_of_mem x hc)
    simp [splitChar, hx, ih hxs]

/-- Embedding of `parseShardURI` from `internal/cluster/shard.go`: split the
URI on `/`; when exactly two pieces result, return the replica-set name and
the comma-split host list, otherwise an empty name and empty host list. -/
def parseShardURI (uri : GoStr) : GoStr × List GoStr :=
  match splitChar '/' uri with
  | [a, b] => (a, splitChar ',' b)
  | _ => ([], [])

/-- C1: a URI with exactly one slash parses into the prefix as replica-set
name and the comma-split suffix as hosts; a URI with no slash parses into an
empty name and empty host list; in particular `"rs1/h1:1,h2:2"` yields name
`"rs1"` and hosts `["h1:1", "h2:2"]`, and `"standalone-no-slash"` yields the
empty name and empty host list. -/
theorem parseShardURI_spec :
    (∀ a b : GoStr, '/' ∉ a → '/' ∉ b →
      parseShardURI (a ++ '/' :: b) = (a, splitChar ',' b)) ∧
    (∀ uri : GoStr, '/' ∉ uri → parseShardURI uri = ([], [])) ∧
    parseShardURI "rs1/h1:1,h2:2".toList =
      ("rs1".toList, ["h1:1".toList, "h2:2".toList]) ∧
    parseShardURI "standalone-no-slash".toList = ([], []) := by
  refine ⟨?_, ?_, by decide, by decide⟩
  · intro a b ha hb
    unfold parseShardURI
    rw [splitChar_append '/' a b ha, splitChar_not_mem '/' b hb]
  · intro uri h
    unfold parseShardURI
    rw [splitChar_not_mem '/' uri h]

theorem parseShardURI_spec_witness :
    parseShardURI ("ab".toList ++ '/' :: "cd".toList) =
      ("ab".toList, splitChar ',' "cd".toList) ∧
    parseShardURI "xyz".toList = ([], []) :=
  ⟨parseShardURI_spec.1 "ab".toList "cd".toList (by decide) (by decide),
   parseShardURI_spec.2.1 "xyz".toList (by decide)⟩

/-- C10: `"rs1/"` parses to name `"rs1"` with a one-element host list whose
only entry is the empty string, and a URI containing two or more slashes
parses to the empty name and empty host list, exactly as a slash-free input
does. -/
theorem parseShardURI_edge :
    parseShardURI "rs1/".toList = ("rs1".toList, [[]]) ∧
    parseShardURI "a/b/c".toList = ([], []) ∧
    (∀ uri : GoStr, 2 ≤ uri.count '/' → parseShardURI uri = ([], [])) := by
  refine ⟨by decide, by decide, ?_⟩
  intro uri h
  have hlen : 3 ≤ (splitChar '/' uri).length := by
    rw [splitChar_length]; omega
  unfold parseShardURI
  rcases hs : splitChar '/' uri with _ | ⟨a, _ | ⟨b, _ | ⟨c, t⟩⟩⟩ <;>
    simp_all

theorem parseShardURI_edge_witness :
    parseShardURI "x//y".toList = ([], []) :=
  parseShardURI_edge.2.2 "x//y".toList (by decide)

/-! ### Shard discovery (internal/cluster/shard.go)

`GetListShards` and `GetConfigsvrShards` are embedded against a model of the
database administrative client, which the specification treats as an external
collaborator specified only at its interface boundary. -/

/-- Embedding of `mdbstructs.Shard`: one document of the cluster's shard
metadata, with its shard id and its `Host` URI string. -/
structure Shard where
  id : GoStr
  host : GoStr
deriving DecidableEq

/-- Embedding of `mdbstructs.ListShards`: the reply document of the
`listShards` server command, holding the shard documents. -/
structure ListShards where
  shards : List Shard
deriving DecidableEq

/-- Errors the database client can report. -/
inductive DBError where
  /-- `listShards` was run against a node that does not support it. -/
  | noSuchCommand
  /-- the `config.shards` collection was read on a node that does not hold
  the cluster metadata. -/
  | noShardData
deriving DecidableEq

/-- Modelled from the spec: the kind of database node a session is connected
to — a router (mongos), a config server, or an ordinary shard node. -/
inductive NodeKind where
  | mongos
  | configsvr
  | shardsvr
deriving DecidableEq

/-- Modelled from the spec: the database administrative client (§6), an
opaque client capable of running commands and returning documents; the node
kind it is connected to determines which discovery command succeeds. -/
structure Session where
  kind : NodeKind
  clusterShards : List Shard
deriving DecidableEq

/-- Modelled from the spec: the server's reply to the `listShards` command,
which "will only succeed on a mongos". -/
def runListShards (s : Session) : Except DBError ListShards :=
  if s.kind = NodeKind.mongos then Except.ok ⟨s.clusterShards⟩
  else Except.error DBError.noSuchCommand

/-- Modelled from the spec: reading every document of the `config.shards`
collection, which holds the shard metadata only on a config server. -/
def findConfigShards (s : Session) : Except DBError (List Shard) :=
  if s.kind = NodeKind.configsvr then Except.ok s.clusterShards
  else Except.error DBError.noShardData

/-- Embedding of `GetListShards`: runs the `listShards` server command and
returns the address of the local reply struct — never nil, zero-valued when
the command failed — together with the error from `session.Run`. -/
def GetListShards (session : Session) : Option ListShards × Option DBError :=
  match runListShards session with
  | Except.ok ls => (some ls, none)
  | Except.error e => (some ⟨[]⟩, some e)

/-- Embedding of `GetConfigsvrShards`: reads all documents of the
`config.shards` collection into a slice initialised non-nil and empty, and
returns it together with the error from the query. -/
def GetConfigsvrShards (session : Session) : Option (List Shard) × Option DBError :=
  match findConfigShards session with
  | Except.ok docs => (some docs, none)
  | Except.error e => (some [], some e)

/-- C2: the two discovery operations are distinct and not interchangeable:
`GetListShards` succeeds exactly against a router and then returns the shard
documents from the `listShards` reply, `GetConfigsvrShards` succeeds exactly
against a config server and then returns the documents of `config.shards`,
and no session lets both succeed. -/
theorem shardDiscovery_distinct :
    (∀ s : Session, (GetListShards s).2 = none ↔ s.kind = NodeKind.mongos) ∧
    (∀ s : Session,
      (GetConfigsvrShards s).2 = none ↔ s.kind = NodeKind.configsvr) ∧
    (∀ s : Session, s.kind = NodeKind.mongos →
      GetListShards s = (some ⟨s.clusterShards⟩, none)) ∧
    (∀ s : Session, s.kind = NodeKind.configsvr →
      GetConfigsvrShards s = (some s.clusterShards, none)) ∧
    (∀ s : Session,
      ¬((GetListShards s).2 = none ∧ (GetConfigsvrShards s).2 = none)) := by
  refine ⟨?_, ?_, ?_, ?_, ?_⟩ <;>
    intro s <;>
    rcases s with ⟨k, sh⟩ <;>
    cases k <;>
    simp [GetListShards, GetConfigsvrShards, runListShards, findConfigShards]

theorem shardDiscovery_distinct_witness :
    GetListShards ⟨NodeKind.mongos, []⟩ = (some ⟨[]⟩, none) ∧
    GetConfigsvrShards ⟨NodeKind.configsvr, []⟩ = (some [], none) :=
  ⟨shardDiscovery_distinct.2.2.1 ⟨NodeKind.mongos, []⟩ rfl,
   shardDiscovery_distinct.2.2.2.1 ⟨NodeKind.configsvr, []⟩ rfl⟩

/-- C9: `GetListShards` always returns a non-nil reply pointer and
`GetConfigsvrShards` always returns a non-nil slice, even on sessions where
the underlying command fails and a non-nil error is returned alongside the
non-nil result — so success is distinguishable only by the error value. -/
theorem getShards_nonNil :
    (∀ s : Session,
      (GetListShards s).1.isSome = true ∧
      (GetConfigsvrShards s).1.isSome = true) ∧
    (∃ s : Session,
      (GetListShards s).2.isSome = true ∧ (GetListShards s).1.isSome = true) ∧
    (∃ s : Session,
      (GetConfigsvrShards s).2.isSome = true ∧
      (GetConfigsvrShards s).1.isSome = true) := by
  refine ⟨?_, ⟨⟨NodeKind.shardsvr, []⟩, by decide⟩,
    ⟨⟨NodeKind.shardsvr, []⟩, by decide⟩⟩
  intro s
  rcases s with ⟨k, sh⟩
  cases k <;>
    simp [GetListShards, GetConfigsvrShards, runListShards, findConfigShards]

/-- The discovered cluster topology: the set of shards. -/
structure Topology where
  shards : List Shard
deriving DecidableEq

/-- Error raised when neither discovery strategy succeeds, carrying the
errors of both attempts. -/
inductive TopologyError where
  | discoveryFailed (routerErr configErr : Option DBError)
deriving DecidableEq

/-- Modelled from the spec: `Discover(dbClient) -> Topology` (§4.2) is
described by the specification but absent from the sources; it tries the
router strategy, falls back to the config-server strategy, and fails with a
`TopologyError` when neither command succeeds, populating no topology on
failure. -/
def Discover (session : Session) : Option Topology × Option TopologyError :=
  match GetListShards session with
  | (some ls, none) => (some ⟨ls.shards⟩, none)
  | (_, e1) =>
    match GetConfigsvrShards session with
    | (some docs, none) => (some ⟨docs⟩, none)
    | (_, e2) => (none, some (TopologyError.discoveryFailed e1 e2))

/-- C3: when neither discovery command succeeds, `Discover` fails with a
`TopologyError`, and on every error return the topology component is `none`
— never partially populated (all-or-nothing). -/
theorem Discover_allOrNothing :
    (∀ s : Session, s.kind ≠ NodeKind.mongos → s.kind ≠ NodeKind.configsvr →
      Discover s = (none, some (TopologyError.discoveryFailed
        (some DBError.noSuchCommand) (some DBError.noShardData)))) ∧
    (∀ (s : Session) (t : Option Topology) (e : TopologyError),
      Discover s = (t, some e) → t = none) := by
  constructor
  · intro s h1 h2
    rcases s with ⟨k, sh⟩
    cases k <;>
      simp_all [Discover, GetListShards, GetConfigsvrShards, runListShards,
        findConfigShards]
  · intro s t e h
    rcases s with ⟨k, sh⟩
    cases k <;>
      simp_all [Discover, GetListShards, GetConfigsvrShards, runListShards,
        findConfigShards]

theorem Discover_allOrNothing_witness :
    Discover ⟨NodeKind.shardsvr, [⟨"s1".toList, "rs1/h1:1".toList⟩]⟩ =
      (none, some (TopologyError.discoveryFailed
        (some DBError.noSuchCommand) (some DBError.noShardData))) :=
  Discover_allOrNothing.1 ⟨NodeKind.shardsvr, [⟨"s1".toList, "rs1/h1:1".toList⟩]⟩
    (by decide) (by decide)

/-! ### Source selection

`SelectSources` and its agent registry are described in §4.1–§4.3 of the
specification; the coordinator-side sources are not part of the sampled
tree, so the selector is modelled from the specification text. -/

/-- Modelled from the spec: the closed enumeration of node types (§3). -/
inductive NodeType where
  | standalone
  | primary
  | secondary
  | arbiter
  | configsvrNode
  | router
deriving DecidableEq

/-- Modelled from the spec: one connected agent as tracked by the registry
(§3). -/
structure Agent where
  id : String
  nodeType : NodeType
  nodeName : String
  clusterId : String
  replicasetName : String
  replicasetUUID : String
deriving DecidableEq

/-- Modelled from the spec: agents whose node type is arbiter or router are
excluded — they cannot serve data reads (§4.3). -/
def eligible (a : Agent) : Bool :=
  a.nodeType != NodeType.arbiter && a.nodeType != NodeType.router

/-- Whether an agent is the replica set member serving live writes. -/
def isPrimary (a : Agent) : Bool :=
  a.nodeType == NodeType.primary

/-- Modelled from the spec: deterministic choice of the agent with the
lexicographically smallest `NodeName` (§4.3). -/
def minByName : List Agent → Option Agent
  | [] => none
  | a :: rest =>
    match minByName rest with
    | none => some a
    | some b => some (if b.nodeName < a.nodeName then b else a)

/-- The eligible non-primary candidates among a replica set's agents. -/
def secsOf (agents : List Agent) : List Agent :=
  (agents.filter eligible).filter fun a => !isPrimary a

/-- Modelled from the spec: pick one replica set's backup source — prefer a
non-primary member, fall back to the primary only when no secondary is
connected, ties broken by smallest `NodeName` (§4.3). -/
def pickSource (agents : List Agent) : Option Agent :=
  match secsOf agents with
  | [] => minByName (agents.filter eligible)
  | s => minByName s

/-- Modelled from the spec: `SelectSources(topology, registry)` yields one
entry per replica set that has an eligible connected agent; replica sets
with none are omitted from the map (§4.3). -/
def SelectSources (topology : List String) (registry : List Agent) :
    List (String × Agent) :=
  topology.filterMap fun rs =>
    (pickSource (registry.filter fun a => a.replicasetName == rs)).map
      fun a => (rs, a)

theorem minByName_eq_none (l : List Agent) : minByName l = none ↔ l = [] := by
  cases l with
  | nil => simp [minByName]
  | cons x rest =>
    rcases h : minByName rest with _ | b <;> simp [minByName, h]

theorem minByName_mem (l : List Agent) (a : Agent)
    (h : minByName l = some a) : a ∈ l := by
  induction l with
  | nil => simp [minByName] at h
  | cons x rest ih =>
    rcases hr : minByName rest with _ | b <;> rw [minByName, hr] at h
    · have hxa : x = a := Option.some_inj.mp h
      subst hxa
      exact List.mem_cons_self x rest
    · have hif := Option.some_inj.mp h
      by_cases hlt : b.nodeName < x.nodeName
      · rw [if_pos hlt] at hif
        subst hif
        exact List.mem_cons_of_mem x (ih hr)
      · rw [if_neg hlt] at hif
        subst hif
        exact List.mem_cons_self _ _

theorem minByName_min (l : List Agent) :
    ∀ a : Agent, minByName l = some a →
      ∀ b ∈ l, ¬(b.nodeName < a.nodeName) := by
  induction l with
  | nil => intro a h; simp [minByName] at h
  | cons x rest ih =>
    intro a h c hc
    rcases hr : minByName rest with _ | m <;> rw [minByName, hr] at h
    · have hrest : rest = [] := (minByName_eq_none rest).mp hr
      subst hrest
      have hxa : x = a := Option.some_inj.mp h
      subst hxa
      have hcx : c = x := by simpa using hc
      subst hcx
      exact lt_irrefl _
    · have hif := Option.some_inj.mp h
      rcases List.mem_cons.mp hc with hcx | hcr
      · subst hcx
        by_cases hlt : m.nodeName < c.nodeName
        · rw [if_pos hlt] at hif
          subst hif
          exact fun hcl => lt_irrefl _ (lt_trans hcl hlt)
        · rw [if_neg hlt] at hif
          subst hif
          exact lt_irrefl _
      · have hmr := ih m hr c hcr
        by_cases hlt : m.nodeName < x.nodeName
        · rw [if_pos hlt] at hif
          subst hif
          exact hmr
        · rw [if_neg hlt] at hif
          subst hif
          exact fun hcl => hmr (lt_of_lt_of_le hcl (not_lt.mp hlt))

theorem minByName_perm (l1 l2 : List Agent) (hp : List.Perm l1 l2)
    (hd : (l1.map Agent.nodeName).Nodup) :
    minByName l1 = minByName l2 := by
  rcases h1 : minByName l1 with _ | a
  · have hn1 : l1 = [] := (minByName_eq_none l1).mp h1
    subst hn1
    have hn2 : l2 = [] := hp.symm.eq_nil
    subst hn2
    rfl
  · rcases h2 : minByName l2 with _ | b
    · have hn2 : l2 = [] := (minByName_eq_none l2).mp h2
      subst hn2
      have hn1 : l1 = [] := hp.eq_nil
      subst hn1
      simp [minByName] at h1
    · have ha : a ∈ l1 := minByName_mem l1 a h1
      have hb : b ∈ l1 := hp.mem_iff.mpr (minByName_mem l2 b h2)
      have hmin1 : ¬(b.nodeName < a.nodeName) := minByName_min l1 a h1 b hb
      have hmin2 : ¬(a.nodeName < b.nodeName) :=
        minByName_min l2 b h2 a (hp.mem_iff.mp ha)
      have hname : a.nodeName = b.nodeName :=
        le_antisymm (not_lt.mp hmin1) (not_lt.mp hmin2)
      exact congrArg some (List.inj_on_of_nodup_map hd ha hb hname)

theorem nodup_names_filter (l : List Agent) (p : Agent → Bool)
    (hd : (l.map Agent.nodeName).Nodup) :
    ((l.filter p).map Agent.nodeName).Nodup :=
  List.Nodup.sublist ((l.filter_sublist).map Agent.nodeName) hd

theorem pickSource_spec (agents : List Agent) (a : Agent)
    (h : pickSource agents = some a) :
    a ∈ agents ∧ eligible a = true ∧
    (isPrimary a = true →
      ∀ b ∈ agents, eligible b = true → isPrimary b = true) ∧
    (∀ b ∈ agents, eligible b = true → isPrimary b = isPrimary a →
      ¬(b.nodeName < a.nodeName)) := by
  unfold pickSource at h
  rcases hs : secsOf agents with _ | ⟨y, ys⟩ <;> rw [hs] at h
  · have hmem := minByName_mem _ _ h
    obtain ⟨haA, haE⟩ := List.mem_filter.mp hmem
    have hall : ∀ b ∈ agents, eligible b = true → isPrimary b = true := by
      intro b hb hbe
      by_contra hbp
      have hbmem : b ∈ secsOf agents := by
        unfold secsOf
        refine List.mem_filter.mpr ⟨List.mem_filter.mpr ⟨hb, hbe⟩, ?_⟩
        simp [hbp]
      rw [hs] at hbmem
      simp at hbmem
    refine ⟨haA, haE, fun _ => hall, ?_⟩
    intro b hb hbe _
    exact minByName_min _ a h b (List.mem_filter.mpr ⟨hb, hbe⟩)
  · have h2 : minByName (secsOf agents) = some a := by rw [hs]; exact h
    have hmem := minByName_mem _ _ h2
    unfold secsOf at hmem
    obtain ⟨hmc, hnp⟩ := List.mem_filter.mp hmem
    obtain ⟨haA, haE⟩ := List.mem_filter.mp hmc
    have hps : isPrimary a = false := by simpa using hnp
    refine ⟨haA, haE, ?_, ?_⟩
    · intro hpa
      rw [hps] at hpa
      exact absurd hpa (by simp)
    · intro b hb hbe hbp
      have hbmem : b ∈ secsOf agents := by
        unfold secsOf
        refine List.mem_filter.mpr ⟨List.mem_filter.mpr ⟨hb, hbe⟩, ?_⟩
        simp [hbp, hps]
      exact minByName_min _ a h2 b hbmem

theorem pickSource_perm (l1 l2 : List Agent) (hp : List.Perm l1 l2)
    (hd : (l1.map Agent.nodeName).Nodup) :
    pickSource l1 = pickSource l2 := by
  have hc : List.Perm (l1.filter eligible) (l2.filter eligible) :=
    hp.filter eligible
  have hsp : List.Perm (secsOf l1) (secsOf l2) := hc.filter _
  unfold pickSource
  rcases h1 : secsOf l1 with _ | ⟨y, ys⟩
  · have h2 : secsOf l2 = [] := List.Perm.eq_nil ((h1 ▸ hsp).symm)
    rw [h2]
    exact minByName_perm _ _ hc (nodup_names_filter l1 eligible hd)
  · rcases hs2 : secsOf l2 with _ | ⟨z, zs⟩
    · rw [h1, hs2] at hsp
      have := hsp.length_eq
      simp at this
    · have e1 : minByName (y :: ys) = minByName (secsOf l1) := by rw [h1]
      have e2 : minByName (z :: zs) = minByName (secsOf l2) := by rw [hs2]
      show minByName (y :: ys) = minByName (z :: zs)
      rw [e1, e2]
      exact minByName_perm _ _ hsp
        (nodup_names_filter _ _ (nodup_names_filter _ _ hd))

/-- C4: every agent chosen by `SelectSources` has a node type that is
neither arbiter nor router, belongs to the replica set it is chosen for, is
a primary only when no eligible non-primary member is connected, and has the
lexicographically smallest `NodeName` in its candidate class. -/
theorem SelectSources_safe :
    ∀ (topology : List String) (registry : List Agent) (rs : String)
      (a : Agent),
      (rs, a) ∈ SelectSources topology registry →
      a.nodeType ≠ NodeType.arbiter ∧ a.nodeType ≠ NodeType.router ∧
      a.replicasetName = rs ∧
      (isPrimary a = true → ∀ b ∈ registry, b.replicasetName = rs →
        eligible b = true → isPrimary b = true) ∧
      (∀ b ∈ registry, b.replicasetName = rs → eligible b = true →
        isPrimary b = isPrimary a → ¬(b.nodeName < a.nodeName)) := by
  intro topo reg rs a hmem
  unfold SelectSources at hmem
  rcases List.mem_filterMap.mp hmem with ⟨rs0, _hrs0, hf⟩
  rcases hopt : pickSource (reg.filter fun x => x.replicasetName == rs0)
    with _ | p <;> rw [hopt] at hf
  · simp at hf
  · simp at hf
    obtain ⟨hrs, hpa⟩ := hf
    rw [hrs, hpa] at hopt
    obtain ⟨hpA, hpE, hprim, hmin⟩ := pickSource_spec _ _ hopt
    obtain ⟨haR, haRS⟩ := List.mem_filter.mp hpA
    have haEq : a.replicasetName = rs := by simpa using haRS
    have hpE2 : a.nodeType ≠ NodeType.arbiter ∧
        a.nodeType ≠ NodeType.router := by
      simpa [eligible] using hpE
    refine ⟨hpE2.1, hpE2.2, haEq, ?_, ?_⟩
    · intro hpa b hb hbrs hbe
      exact hprim hpa b (List.mem_filter.mpr ⟨hb, by simp [hbrs]⟩) hbe
    · intro b hb hbrs hbe hbp
      exact hmin b (List.mem_filter.mpr ⟨hb, by simp [hbrs]⟩) hbe hbp

/-- A connected secondary agent used in concrete scenarios. -/
def agentSec : Agent :=
  ⟨"127.0.0.1:17003", NodeType.secondary, "127.0.0.1:17003", "cl1", "rs1",
    "uuid-rs1"⟩

/-- A connected primary agent used in concrete scenarios. -/
def agentPri : Agent :=
  ⟨"127.0.0.1:17001", NodeType.primary, "127.0.0.1:17001", "cl1", "rs1",
    "uuid-rs1"⟩

theorem SelectSources_safe_witness :
    agentSec.nodeType ≠ NodeType.arbiter ∧
    agentSec.nodeType ≠ NodeType.router :=
  let h := SelectSources_safe ["rs1"] [agentSec, agentPri] "rs1" agentSec
    (by decide)
  ⟨h.1, h.2.1⟩

/-- C5: `SelectSources` is deterministic — it depends only on the snapshot
contents, not on the enumeration order of the registry: any two registry
enumerations that are permutations of each other (with distinct node names,
as the tie-break presumes) yield the same backup-source map. -/
theorem SelectSources_deterministic :
    ∀ (topology : List String) (registry1 registry2 : List Agent),
      List.Perm registry1 registry2 →
      (registry1.map Agent.nodeName).Nodup →
      SelectSources topology registry1 = SelectSources topology registry2 := by
  intro topo reg1 reg2 hp hd
  unfold SelectSources
  congr 1
  funext rs
  rw [pickSource_perm _ _ (hp.filter _) (nodup_names_filter _ _ hd)]

theorem SelectSources_deterministic_witness :
    SelectSources ["rs1"] [agentSec, agentPri] =
      SelectSources ["rs1"] [agentPri, agentSec] :=
  SelectSources_deterministic ["rs1"] [agentSec, agentPri]
    [agentPri, agentSec] (List.Perm.swap agentPri agentSec []) (by decide)

/-! ### Backup orchestration

The orchestrator's join barrier, busy rejection and oplog-stop lifecycle are
described in §4.4, §5, §7 and §8 of the specification; the coordinator
sources are not part of the sampled tree, so they are modelled from the
specification text. -/

/-- Modelled from the spec: the join barrier over per-replica-set completion
signals (§5, §9): the dispatched replica sets and the results received so
far, in arrival order. -/
structure BackupJoin where
  dispatched : List String
  results : List (String × Bool)
deriving DecidableEq

/-- A fresh barrier right after dispatching to the given replica sets. -/
def newJoin (rss : List String) : BackupJoin := ⟨rss, []⟩

/-- The result recorded for a replica set: its earliest signal, if any. -/
def lookupRS : List (String × Bool) → String → Option Bool
  | [], _ => none
  | (r, okv) :: rest, rs => if r = rs then some okv else lookupRS rest rs

/-- Modelled from the spec: one replica set reports completion (`true`) or
failure (`false`) (§4.4 `Running`). -/
def signalFinish (j : BackupJoin) (rs : String) (okv : Bool) : BackupJoin :=
  { j with results := j.results ++ [(rs, okv)] }

/-- Feed a sequence of completion signals into the barrier. -/
def applySignals (j : BackupJoin) : List (String × Bool) → BackupJoin
  | [] => j
  | (rs, okv) :: rest => applySignals (signalFinish j rs okv) rest

/-- Modelled from the spec: `WaitBackupFinish` is satisfied exactly when
every dispatched replica set has a recorded result (§4.4). -/
def waitBackupFinishDone (j : BackupJoin) : Bool :=
  j.dispatched.all fun rs => (lookupRS j.results rs).isSome

theorem lookupRS_isSome (l : List (String × Bool)) (rs : String) :
    (lookupRS l rs).isSome = true ↔ rs ∈ l.map Prod.fst := by
  induction l with
  | nil => simp [lookupRS]
  | cons p rest ih =>
    obtain ⟨r, okv⟩ := p
    by_cases h : r = rs
    · subst h
      simp [lookupRS]
    · simp [lookupRS, h, Ne.symm h, ih]

theorem applySignals_results (sigs : List (String × Bool)) :
    ∀ j : BackupJoin,
      (applySignals j sigs).results = j.results ++ sigs ∧
      (applySignals j sigs).dispatched = j.dispatched := by
  induction sigs with
  | nil => intro j; simp [applySignals]
  | cons p rest ih =>
    intro j
    obtain ⟨rs, okv⟩ := p
    obtain ⟨h1, h2⟩ := ih (signalFinish j rs okv)
    refine ⟨?_, ?_⟩
    · rw [applySignals, h1]
      simp [signalFinish]
    · rw [applySignals, h2]
      rfl

/-- C6: the wait over the backup join barrier never returns early and does
return once every signal has arrived: after dispatching to `rss` and
receiving the signals `sigs`, the wait is satisfied exactly when every
dispatched replica set appears among the signals, and the result recorded
for each replica set is the signal that replica set sent — each failure is
attributable to the correct replica set. -/
theorem WaitBackupFinish_join :
    ∀ (rss : List String) (sigs : List (String × Bool)),
      (waitBackupFinishDone (applySignals (newJoin rss) sigs) = true ↔
        ∀ rs ∈ rss, rs ∈ sigs.map Prod.fst) ∧
      (∀ rs : String,
        lookupRS (applySignals (newJoin rss) sigs).results rs =
          lookupRS sigs rs) := by
  intro rss sigs
  obtain ⟨h1, h2⟩ := applySignals_results sigs (newJoin rss)
  constructor
  · unfold waitBackupFinishDone
    rw [h1, h2]
    have hd : (newJoin rss).dispatched = rss := rfl
    have hr : (newJoin rss).results = [] := rfl
    rw [hd, hr, List.nil_append]
    simp only [List.all_eq_true]
    constructor
    · intro h rs hrs
      exact (lookupRS_isSome sigs rs).mp (h rs hrs)
    · intro h rs hrs
      exact (lookupRS_isSome sigs rs).mpr (h rs hrs)
  · intro rs
    rw [h1]
    simp [newJoin]

theorem WaitBackupFinish_join_witness :
    waitBackupFinishDone (applySignals (newJoin ["rs1", "rs2", "csReplSet"])
      [("rs1", true), ("rs2", false), ("csReplSet", true)]) = true ∧
    lookupRS (applySignals (newJoin ["rs1", "rs2", "csReplSet"])
        [("rs1", true), ("rs2", false), ("csReplSet", true)]).results "rs2" =
      some false :=
  ⟨(WaitBackupFinish_join ["rs1", "rs2", "csReplSet"]
      [("rs1", true), ("rs2", false), ("csReplSet", true)]).1.mpr (by decide),
   ((WaitBackupFinish_join ["rs1", "rs2", "csReplSet"]
      [("rs1", true), ("rs2", false), ("csReplSet", true)]).2 "rs2").trans
     (by decide)⟩

/-- Modelled from the spec: a backup request (§3), immutable once
submitted. -/
structure BackupRequest where
  backupType : String
  destinationName : String
  destinationDir : String
  oplogStartTime : Int
deriving DecidableEq

/-- Modelled from the spec: the backup orchestrator's states (§4.4). -/
inductive OrchState where
  | idle
  | electing
  | dispatching
  | running
  | oplogOnly
  | stopping
  | finished
  | errored
deriving DecidableEq

/-- States in which a backup is in flight, per §4.4's concurrency
invariant. -/
def OrchState.isActive : OrchState → Bool
  | OrchState.electing => true
  | OrchState.dispatching => true
  | OrchState.running => true
  | OrchState.oplogOnly => true
  | _ => false

/-- Modelled from the spec: the orchestrator — a process-wide singleton
holding its state and the single in-flight request. -/
structure BackupOrchestrator where
  state : OrchState
  inFlight : Option BackupRequest
deriving DecidableEq

/-- The immediate busy rejection of §7. -/
inductive OrchError where
  | busy
deriving DecidableEq

/-- Modelled from the spec: `StartBackup` accepts a request only from
`Idle`, moving to `Electing` with the request in flight; from any other
state it fails immediately with a `BusyError` and changes nothing (§4.4,
§7). -/
def StartBackup (o : BackupOrchestrator) (req : BackupRequest) :
    BackupOrchestrator × Option OrchError :=
  match o.state with
  | OrchState.idle => (⟨OrchState.electing, some req⟩, none)
  | _ => (o, some OrchError.busy)

/-- C7: from every state other than `Idle` a `StartBackup` request fails
immediately with a `BusyError`, is not queued, and leaves the orchestrator —
in particular the in-flight backup — unchanged; a request is accepted only
from `Idle`, where no backup is active, so at most one backup is in the
`Electing`/`Dispatching`/`Running`/`OplogOnly` states at a time. -/
theorem StartBackup_busy :
    (∀ (o : BackupOrchestrator) (req : BackupRequest),
      o.state ≠ OrchState.idle →
      StartBackup o req = (o, some OrchError.busy)) ∧
    (∀ (o : BackupOrchestrator) (req : BackupRequest),
      (StartBackup o req).2 = none →
      o.state = OrchState.idle ∧ o.state.isActive = false) ∧
    (∀ (o : BackupOrchestrator) (req : BackupRequest),
      o.state.isActive = true → (StartBackup o req).1 = o) := by
  refine ⟨?_, ?_, ?_⟩ <;> intro o req <;> rcases o with ⟨s, f⟩ <;>
    cases s <;> simp [StartBackup, OrchState.isActive]

/-- A first backup request used in concrete scenarios. -/
def reqA : BackupRequest := ⟨"logical", "test", "/tmp/dump", 0⟩

/-- A second backup request used in concrete scenarios. -/
def reqB : BackupRequest := ⟨"logical", "test2", "/tmp/dump2", 1⟩

theorem StartBackup_busy_witness :
    StartBackup ⟨OrchState.running, some reqA⟩ reqB =
      (⟨OrchState.running, some reqA⟩, some OrchError.busy) :=
  StartBackup_busy.1 ⟨OrchState.running, some reqA⟩ reqB (by decide)

/-- Report of a stop request that found nothing left to stop. -/
inductive StopNote where
  | alreadyStopped
deriving DecidableEq

/-- Modelled from the spec: the oplog-tailing lifecycle flag the coordinator
keeps for the current backup (§4.4 `Stopping`, §8). -/
structure OplogTail where
  tailing : Bool
deriving DecidableEq

/-- Modelled from the spec: `StopOplogTail` broadcasts the stop and clears
the flag; invoked when tailing is already stopped it is a no-op that reports
"already stopped" (§8). -/
def StopOplogTail (t : OplogTail) : OplogTail × Option StopNote :=
  if t.tailing then (⟨false⟩, none) else (t, some StopNote.alreadyStopped)

/-- C8: calling `StopOplogTail` a second time immediately after a first call
is safe: the second call leaves the state unchanged (a no-op) and reports
that tailing is already stopped; being a total function it returns on every
input rather than blocking. -/
theorem StopOplogTail_secondCall :
    ∀ t : OplogTail,
      (StopOplogTail (StopOplogTail t).1).1 = (StopOplogTail t).1 ∧
      (StopOplogTail (StopOplogTail t).1).2 =
        some StopNote.alreadyStopped := by
  intro t
  rcases t with ⟨b⟩
  cases b <;> simp [StopOplogTail]

end PBM
